/-
Verification of the LinkedIn-Post-Generator core:
- few_shot.py : length categorization, tag collection, filtered retrieval
- preprocess.py : per-post enrichment, tag unification, tag-mapping application

The Python data lives in pandas DataFrames / JSON records; we embed a corpus
as a `List Post`.  External LLM collaborators are embedded as explicit
function parameters returning `Except`.
-/
import Mathlib

namespace LinkedIn

/-- Embeds the dynamic `tags` field of a loaded JSON record: the code guards
every read with `isinstance(tags, list)`, so a record's tags are either an
actual list of strings or some non-list value. -/
inductive TagsField where
  | ofList (ts : List String)
  | notList
  deriving DecidableEq, Repr

/-- Embeds one processed-post record as loaded by `few_shot.load_posts`
(fields written by `preprocess.preprocess_posts`). `length_category` is not a
stored field: the code derives it from `line_count` at load time. -/
structure Post where
  text : String
  engagement : Int
  line_count : Nat
  language : String
  tags : TagsField
  deriving DecidableEq, Repr

/-- Embeds `few_shot.categorize_length`. -/
def categorize_length (line_count : Int) : String :=
  if line_count < 5 then "Short"
  else if line_count ≤ 10 then "Medium"
  else "Long"

/-- C5: `categorize_length` is total and returns "Short" iff `c < 5`,
"Medium" iff `5 ≤ c ≤ 10`, "Long" iff `c > 10`; boundaries 4, 5, 10, 11 map
to Short, Medium, Medium, Long. -/
theorem categorize_length_spec :
    (∀ c : Int,
      (categorize_length c = "Short" ↔ c < 5) ∧
      (categorize_length c = "Medium" ↔ 5 ≤ c ∧ c ≤ 10) ∧
      (categorize_length c = "Long" ↔ 10 < c)) ∧
    categorize_length 4 = "Short" ∧ categorize_length 5 = "Medium" ∧
    categorize_length 10 = "Medium" ∧ categorize_length 11 = "Long" := by
  refine ⟨fun c => ⟨?_, ?_, ?_⟩, by decide, by decide, by decide, by decide⟩ <;>
    unfold categorize_length <;> split <;> (try split) <;>
      simp_all <;> omega

/-- Derived length category of a loaded post — `load_posts` computes
`df["length_category"] = df["line_count"].apply(categorize_length)`. -/
def length_category (p : Post) : String :=
  categorize_length p.line_count

/-- Embeds Python truthiness of an optional string argument defaulting to
`None`: `if length:` is taken iff the argument is neither `None` nor `""`. -/
def truthy : Option String → Bool
  | none => false
  | some s => s ≠ ""

/-- Embeds the per-record tag membership test of `get_filtered_posts`:
`lambda tags: tag in tags if isinstance(tags, list) else False`. -/
def tags_contain : TagsField → String → Bool
  | .ofList ts, t => ts.contains t
  | .notList, _ => false

/-- Embeds `df = df[df["length_category"] == length]` guarded by
`if length:`. -/
def filter_length (df : List Post) : Option String → List Post
  | none => df
  | some s => if s = "" then df else df.filter (fun p => length_category p == s)

/-- Embeds `df = df[df["language"] == language]` guarded by `if language:`. -/
def filter_language (df : List Post) : Option String → List Post
  | none => df
  | some s => if s = "" then df else df.filter (fun p => p.language == s)

/-- Embeds the tag filter of `get_filtered_posts` guarded by `if tag:`. -/
def filter_tag (df : List Post) : Option String → List Post
  | none => df
  | some s => if s = "" then df else df.filter (fun p => tags_contain p.tags s)

/-- Embeds the candidate-selection control flow of
`few_shot.get_filtered_posts` before ranking: apply the three filters in
sequence; if nothing is left, reload the corpus and keep only the tag
filter; if still nothing, use the whole reloaded corpus.  Both calls to
`load_posts` within one query read the same file, so the reload is the same
`corpus`. -/
def get_filtered_candidates (corpus : List Post)
    (length language tag : Option String) : List Post :=
  let df := filter_tag (filter_language (filter_length corpus length) language) tag
  if df.length = 0 then
    let df2 := filter_tag corpus tag
    if df2.length = 0 then corpus else df2
  else df

/-- Relation `b.engagement ≤ a.engagement`: the order in which
`sort_values("engagement", ascending=False)` leaves adjacent rows. -/
def EngDesc (a b : Post) : Prop := b.engagement ≤ a.engagement

instance : DecidableRel EngDesc := fun a b => inferInstanceAs (Decidable (_ ≤ _))

/-- Embeds `df.sort_values("engagement", ascending=False)`.  pandas is called
with the default `kind='quicksort'`, which is documented as not stable, so
the result is specified only up to: a permutation of the input that is
weakly decreasing in `engagement`.  `sort_values_desc df out` holds iff
`out` is a possible result of sorting `df`. -/
def sort_values_desc (df out : List Post) : Prop :=
  df.Perm out ∧ out.Sorted EngDesc

/-- Embeds `few_shot.get_filtered_posts` as a relation between the loaded
corpus, the query, and a possible returned list: candidates from the filter
cascade, sorted by engagement descending (up to the unstable-sort
nondeterminism), truncated by `df.head(max_results)`. -/
def get_filtered_posts (corpus : List Post)
    (length language tag : Option String) (max_results : Nat)
    (out : List Post) : Prop :=
  ∃ sorted, sort_values_desc (get_filtered_candidates corpus length language tag) sorted ∧
    out = sorted.take max_results

/-! Spec-side description of the cascade (the three stages as the spec words
them), to be compared with the sequential control flow of the code. -/

/-- Spec-side predicate of the length filter: satisfied vacuously when no
length filter is supplied. -/
def length_pred (length : Option String) (p : Post) : Bool :=
  match length with
  | none => true
  | some s => if s = "" then true else length_category p == s

/-- Spec-side predicate of the language filter. -/
def language_pred (language : Option String) (p : Post) : Bool :=
  match language with
  | none => true
  | some s => if s = "" then true else p.language == s

/-- Spec-side predicate of the tag filter. -/
def tag_pred (tag : Option String) (p : Post) : Bool :=
  match tag with
  | none => true
  | some s => if s = "" then true else tags_contain p.tags s

/-- Stage 1 per the spec: every supplied filter applied conjunctively. -/
def stage1_posts (corpus : List Post) (length language tag : Option String) :
    List Post :=
  corpus.filter (fun p => length_pred length p && language_pred language p && tag_pred tag p)

/-- Stage 2 per the spec: only the tag filter (if one was given) over the
reloaded corpus. -/
def stage2_posts (corpus : List Post) (tag : Option String) : List Post :=
  corpus.filter (fun p => tag_pred tag p)

lemma filter_length_eq (df : List Post) (l : Option String) :
    filter_length df l = df.filter (fun p => length_pred l p) := by
  cases l with
  | none => simp [filter_length, length_pred]
  | some s =>
    by_cases hs : s = "" <;>
      simp [filter_length, length_pred, hs]

lemma filter_language_eq (df : List Post) (l : Option String) :
    filter_language df l = df.filter (fun p => language_pred l p) := by
  cases l with
  | none => simp [filter_language, language_pred]
  | some s =>
    by_cases hs : s = "" <;>
      simp [filter_language, language_pred, hs]

lemma filter_tag_eq (df : List Post) (l : Option String) :
    filter_tag df l = df.filter (fun p => tag_pred l p) := by
  cases l with
  | none => simp [filter_tag, tag_pred]
  | some s =>
    by_cases hs : s = "" <;>
      simp [filter_tag, tag_pred, hs]

lemma sequential_filters_eq_stage1 (corpus : List Post)
    (l g t : Option String) :
    filter_tag (filter_language (filter_length corpus l) g) t =
      stage1_posts corpus l g t := by
  rw [filter_length_eq, filter_language_eq, filter_tag_eq, stage1_posts,
    List.filter_filter, List.filter_filter]
  exact List.filter_congr (fun p _ => by
    cases length_pred l p <;> cases language_pred g p <;> cases tag_pred t p <;> rfl)

/-- The cascade shape of the candidate computation. -/
lemma get_filtered_candidates_eq_cascade (corpus : List Post)
    (l g t : Option String) :
    get_filtered_candidates corpus l g t =
      (if stage1_posts corpus l g t ≠ [] then stage1_posts corpus l g t
       else if stage2_posts corpus t ≠ [] then stage2_posts corpus t
       else corpus) := by
  unfold get_filtered_candidates
  rw [sequential_filters_eq_stage1, filter_tag_eq]
  by_cases h1 : stage1_posts corpus l g t = [] <;>
    by_cases h2 : corpus.filter (fun p => tag_pred t p) = [] <;>
      simp [h1, h2, stage2_posts, List.length_eq_zero]

/-- Candidates are empty exactly when the corpus is empty. -/
lemma get_filtered_candidates_eq_nil_iff (corpus : List Post)
    (l g t : Option String) :
    get_filtered_candidates corpus l g t = [] ↔ corpus = [] := by
  rw [get_filtered_candidates_eq_cascade]
  constructor
  · intro h
    by_cases h1 : stage1_posts corpus l g t = [] <;>
      by_cases h2 : stage2_posts corpus t = [] <;>
        simp_all
  · intro h
    subst h
    simp [stage1_posts, stage2_posts]

/-- Sample post used to instantiate retrieval theorems on concrete data. -/
def samplePost : Post :=
  { text := "hello\nworld", engagement := 10, line_count := 2,
    language := "English", tags := .ofList ["General"] }

/-- Second sample post, same engagement as `samplePost`, different text. -/
def samplePost2 : Post :=
  { text := "other", engagement := 10, line_count := 1,
    language := "English", tags := .ofList ["ML"] }

/-- C1: with `max_results ≥ 1`, any list returned by `get_filtered_posts` is
empty exactly when the loaded corpus is empty — a non-empty corpus always
yields at least one post, whatever filters are supplied. -/
theorem get_filtered_posts_nonempty (corpus : List Post)
    (l g t : Option String) (m : Nat) (out : List Post)
    (hm : 1 ≤ m) (h : get_filtered_posts corpus l g t m out) :
    out = [] ↔ corpus = [] := by
  obtain ⟨sorted, ⟨hperm, _⟩, hout⟩ := h
  subst hout
  rw [List.take_eq_nil_iff]
  constructor
  · intro h
    rcases h with h | h
    · omega
    · rw [← get_filtered_candidates_eq_nil_iff corpus l g t]
      rw [h] at hperm
      exact hperm.symm.nil_eq.symm
  · intro h
    right
    have hc : get_filtered_candidates corpus l g t = [] :=
      (get_filtered_candidates_eq_nil_iff corpus l g t).mpr h
    rw [hc] at hperm
    exact hperm.nil_eq.symm

/-- Witness for C1 on a concrete singleton corpus and the identity query. -/
theorem get_filtered_posts_nonempty_witness :
    ([samplePost] = ([] : List Post) ↔ ([samplePost] : List Post) = []) :=
  get_filtered_posts_nonempty [samplePost] none none none 1 [samplePost]
    (by decide)
    ⟨[samplePost], ⟨List.Perm.refl _, List.sorted_singleton samplePost⟩, rfl⟩

/-- C2: the candidate set of `get_filtered_posts` is the three-stage
cascade — stage 1 (all supplied filters, conjunctively) if non-empty, else
stage 2 (tag filter only, over the reloaded corpus) if non-empty, else the
entire corpus — and the returned list is exactly that candidate set ranked by
engagement and truncated. -/
theorem get_filtered_posts_cascade :
    (∀ (corpus : List Post) (l g t : Option String),
      get_filtered_candidates corpus l g t =
        (if stage1_posts corpus l g t ≠ [] then stage1_posts corpus l g t
         else if stage2_posts corpus t ≠ [] then stage2_posts corpus t
         else corpus)) ∧
    (∀ (corpus : List Post) (l g t : Option String) (m : Nat) (out : List Post),
      get_filtered_posts corpus l g t m out ↔
        ∃ sorted,
          sort_values_desc
            (if stage1_posts corpus l g t ≠ [] then stage1_posts corpus l g t
             else if stage2_posts corpus t ≠ [] then stage2_posts corpus t
             else corpus) sorted ∧
          out = sorted.take m) := by
  refine ⟨get_filtered_candidates_eq_cascade, fun corpus l g t m out => ?_⟩
  rw [get_filtered_posts, get_filtered_candidates_eq_cascade]

/-- C4: any returned list has at most `max_results` posts, and when
`max_results` is at least the size of the candidate set, the returned list
is the whole candidate set (as a reordering), with nothing added. -/
theorem get_filtered_posts_length_le (corpus : List Post)
    (l g t : Option String) (m : Nat) (out : List Post)
    (h : get_filtered_posts corpus l g t m out) :
    out.length ≤ m ∧
      ((get_filtered_candidates corpus l g t).length ≤ m →
        out.Perm (get_filtered_candidates corpus l g t)) := by
  obtain ⟨sorted, ⟨hperm, _⟩, hout⟩ := h
  subst hout
  constructor
  · rw [List.length_take]
    exact min_le_left _ _
  · intro hle
    have hlen : sorted.length ≤ m := hperm.length_eq ▸ hle
    rw [List.take_of_length_le hlen]
    exact hperm.symm

/-- Witness for C4: singleton corpus, `max_results = 5`. -/
theorem get_filtered_posts_length_le_witness :
    ([samplePost] : List Post).length ≤ 5 ∧
      ((get_filtered_candidates [samplePost] none none none).length ≤ 5 →
        ([samplePost] : List Post).Perm (get_filtered_candidates [samplePost] none none none)) :=
  get_filtered_posts_length_le [samplePost] none none none 5 [samplePost]
    ⟨[samplePost], ⟨List.Perm.refl _, List.sorted_singleton samplePost⟩, rfl⟩

/-- C3 counterexample: the sort behind the ranking is pandas
`sort_values` with its default `kind='quicksort'`, which gives no stability
guarantee, so for a corpus of two distinct posts with equal engagement the
code may return them in reversed corpus order: `[samplePost2, samplePost]`
is a permitted result for the corpus `[samplePost, samplePost2]`. -/
theorem get_filtered_posts_not_stable :
    get_filtered_posts [samplePost, samplePost2] none none none 3
        [samplePost2, samplePost] ∧
      samplePost.engagement = samplePost2.engagement ∧
      samplePost ≠ samplePost2 := by
  refine ⟨⟨[samplePost2, samplePost], ⟨?_, ?_⟩, rfl⟩, rfl, by decide⟩
  · have hc : get_filtered_candidates [samplePost, samplePost2] none none none =
        [samplePost, samplePost2] := rfl
    rw [hc]
    exact List.Perm.swap samplePost2 samplePost []
  · exact List.sorted_cons.mpr ⟨by intro b hb; simp at hb; subst hb; exact le_refl _,
      List.sorted_singleton samplePost⟩

/-- C3 amended: every list returned by `get_filtered_posts` is weakly
decreasing in engagement; the relative order of posts with equal engagement
is not specified (pandas' default quicksort is not a stable sort). -/
theorem get_filtered_posts_sorted (corpus : List Post)
    (l g t : Option String) (m : Nat) (out : List Post)
    (h : get_filtered_posts corpus l g t m out) :
    out.Sorted EngDesc := by
  obtain ⟨sorted, ⟨_, hsorted⟩, hout⟩ := h
  subst hout
  exact hsorted.sublist (List.take_sublist m sorted)

/-- Witness for the amended C3 on concrete data. -/
theorem get_filtered_posts_sorted_witness :
    ([samplePost] : List Post).Sorted EngDesc :=
  get_filtered_posts_sorted [samplePost] none none none 2 [samplePost]
    ⟨[samplePost], ⟨List.Perm.refl _, List.sorted_singleton samplePost⟩, rfl⟩

/-! Embedding of preprocess.py: per-post enrichment with an external
classification collaborator, tag unification with an external mapping
collaborator, and corpus-wide application of the tag mapping. -/

/-- Embeds one raw input record: `text` is required (`post["text"]`),
`engagement` is read with `post.get("engagement", 0)` so it may be absent. -/
structure RawPost where
  text : String
  engagement : Option Int
  deriving DecidableEq, Repr

/-- Embeds the parsed JSON object returned by the classification call; the
code reads both fields with `.get(key, default)`, so each may be absent. -/
structure Metadata where
  language : Option String
  tags : Option (List String)
  deriving DecidableEq, Repr

/-- Splits a character list at newline characters, like Python
`text.split("\n")`: empty segments are kept and the result is never empty. -/
def split_newlines : List Char → List (List Char)
  | [] => [[]]
  | c :: cs =>
    if c = '\n' then [] :: split_newlines cs
    else
      match split_newlines cs with
      | [] => [[c]]
      | l :: ls => (c :: l) :: ls

/-- Whether a line is blank, i.e. Python `line.strip()` is empty: every
character is whitespace. -/
def is_blank (line : List Char) : Bool :=
  line.all (fun c => c.isWhitespace)

/-- Embeds `preprocess.count_lines`: the number of segments of
`text.split("\n")` that are non-empty after stripping. -/
def count_lines (text : String) : Nat :=
  ((split_newlines text.data).filter (fun line => !(is_blank line))).length

/-- Embeds `preprocess.extract_metadata_for_post`: invoke the classification
chain; on any raised failure return the fallback metadata
`{language: "English", tags: ["General"]}`. -/
def extract_metadata_for_post (classify : String → Except String Metadata)
    (post_text : String) : Metadata :=
  match classify post_text with
  | .ok result => result
  | .error _ => { language := some "English", tags := some ["General"] }

/-- Embeds one enriched record as built by `preprocess.preprocess_posts`. -/
structure EnrichedPost where
  text : String
  engagement : Int
  line_count : Nat
  language : String
  tags : List String
  deriving DecidableEq, Repr

/-- Embeds the loop body of step 1 of `preprocess.preprocess_posts`: derive
`line_count` locally, call `extract_metadata_for_post`, and assemble the
enriched record with the `.get` defaults of the code. -/
def enrich_post (classify : String → Except String Metadata)
    (post : RawPost) : EnrichedPost :=
  let text := post.text
  let line_count := count_lines text
  let metadata := extract_metadata_for_post classify text
  { text := text
    engagement := post.engagement.getD 0
    line_count := line_count
    language := metadata.language.getD "English"
    tags := metadata.tags.getD [] }

/-- C6: when the classification call fails on a post, enrichment does not
propagate the failure: the post is still emitted with language "English" and
tags ["General"], and its text, engagement and line count are still derived
from the raw input. -/
theorem enrich_post_fallback (classify : String → Except String Metadata)
    (post : RawPost) (e : String)
    (h : classify post.text = Except.error e) :
    enrich_post classify post =
      { text := post.text
        engagement := post.engagement.getD 0
        line_count := count_lines post.text
        language := "English"
        tags := ["General"] } := by
  simp [enrich_post, extract_metadata_for_post, h]

/-- Witness for C6: a classifier that always fails, on a concrete post. -/
theorem enrich_post_fallback_witness :
    enrich_post (fun _ => Except.error "service down")
        { text := "a\n\nb", engagement := some 7 } =
      { text := "a\n\nb", engagement := 7, line_count := 2,
        language := "English", tags := ["General"] } := by
  have h := enrich_post_fallback (fun _ => Except.error "service down")
    { text := "a\n\nb", engagement := some 7 } "service down" rfl
  rw [h]
  decide

/-- Embeds `list(dict.fromkeys(xs))`: iterate over the keys, inserting each
one not yet present, so duplicates are dropped and the first occurrence of
each value keeps its place. -/
def dict_fromkeys (l : List String) : List String :=
  l.foldl (fun acc t => if t ∈ acc then acc else acc ++ [t]) []

/-- Spec-side description of order-preserving deduplication: keep each
element's first occurrence, deleting the later duplicates. -/
def dedup_keep_first : List String → List String
  | [] => []
  | a :: l => a :: dedup_keep_first (l.filter (fun b => b ≠ a))
termination_by l => l.length
decreasing_by
  simp
  exact Nat.lt_succ_of_le (List.length_filter_le _ _)

/-- Embeds `list(set(xs))` as used by `unify_all_tags`: the distinct
elements of `xs`.  CPython's set iteration order is unspecified; the
embedding fixes first-occurrence order and only order-independent facts
about this list are used. -/
def unique_list (l : List String) : List String :=
  dict_fromkeys l

/-- Embeds `tag_mapping.get(tag, tag)`: the mapped value when the tag has an
entry, the tag itself otherwise. -/
def map_image (m : List (String × String)) (t : String) : String :=
  (List.lookup t m).getD t

/-- Embeds the tag-mapping application in step 2 of `preprocess_posts`:
`[tag_mapping.get(tag, tag) for tag in post["tags"]]` followed by
`list(dict.fromkeys(...))`. -/
def apply_tag_mapping (m : List (String × String)) (tags : List String) :
    List String :=
  dict_fromkeys (tags.map (fun t => map_image m t))

/-- Embeds `preprocess.unify_all_tags`: reduce the observed tags to their
distinct values, invoke the unification chain once; on a raised failure
return the identity mapping over the distinct tags. -/
def unify_all_tags
    (unifier : List String → Except String (List (String × String)))
    (all_tags : List String) : List (String × String) :=
  let unique_tags := unique_list all_tags
  match unifier unique_tags with
  | .ok result => result
  | .error _ => unique_tags.map (fun t => (t, t))

lemma foldl_fromkeys_general (l : List String) :
    ∀ acc : List String,
      l.foldl (fun acc t => if t ∈ acc then acc else acc ++ [t]) acc =
        acc ++ dedup_keep_first (l.filter (fun x => x ∉ acc)) := by
  induction l with
  | nil => intro acc; simp [dedup_keep_first]
  | cons a l ih =>
    intro acc
    rw [List.foldl_cons, List.filter_cons]
    by_cases h : a ∈ acc
    · rw [if_pos h]
      have : (decide (a ∉ acc)) = false := by simp [h]
      rw [this, if_neg (by simp)]
      exact ih acc
    · rw [if_neg h]
      have : (decide (a ∉ acc)) = true := by simp [h]
      rw [this, if_pos rfl, ih (acc ++ [a]), dedup_keep_first]
      rw [List.append_assoc]
      congr 1
      rw [List.singleton_append]
      congr 1
      rw [List.filter_filter]
      congr 1
      apply List.filter_congr
      intro x _
      by_cases hxa : x = a <;> by_cases hxacc : x ∈ acc <;>
        simp [hxa, hxacc, List.mem_append]

/-- The insertion-based dedup of the code equals the spec-side
first-occurrence dedup. -/
lemma dict_fromkeys_eq_dedup_keep_first (l : List String) :
    dict_fromkeys l = dedup_keep_first l := by
  have h := foldl_fromkeys_general l []
  simpa [dict_fromkeys] using h

lemma mem_dedup_keep_first {x : String} :
    ∀ {l : List String}, x ∈ dedup_keep_first l ↔ x ∈ l := by
  intro l
  induction l using dedup_keep_first.induct with
  | case1 => simp [dedup_keep_first]
  | case2 a l ih =>
    rw [dedup_keep_first]
    by_cases hxa : x = a
    · simp [hxa]
    · simp only [List.mem_cons, hxa, false_or]
      rw [ih]
      simp [hxa]

lemma nodup_dedup_keep_first :
    ∀ l : List String, (dedup_keep_first l).Nodup := by
  intro l
  induction l using dedup_keep_first.induct with
  | case1 => simp [dedup_keep_first]
  | case2 a l ih =>
    rw [dedup_keep_first]
    refine List.nodup_cons.mpr ⟨?_, ih⟩
    rw [mem_dedup_keep_first]
    simp

lemma dedup_keep_first_eq_self_of_nodup :
    ∀ l : List String, l.Nodup → dedup_keep_first l = l := by
  intro l
  induction l using dedup_keep_first.induct with
  | case1 => intro _; simp [dedup_keep_first]
  | case2 a l ih =>
    intro hnd
    rcases List.nodup_cons.mp hnd with ⟨ha, hl⟩
    rw [dedup_keep_first]
    have hfl : l.filter (fun b => b ≠ a) = l := by
      apply List.filter_eq_self.mpr
      intro b hb
      simp
      exact fun hba => ha (hba ▸ hb)
    rw [hfl] at ih ⊢
    rw [ih hl]

lemma mem_dict_fromkeys {x : String} {l : List String} :
    x ∈ dict_fromkeys l ↔ x ∈ l := by
  rw [dict_fromkeys_eq_dedup_keep_first]
  exact mem_dedup_keep_first

lemma lookup_map_id {t : String} :
    ∀ {l : List String}, t ∈ l →
      List.lookup t (l.map (fun x => (x, x))) = some t := by
  intro l
  induction l with
  | nil => intro h; cases h
  | cons a l ih =>
    intro ht
    by_cases hta : t = a
    · subst hta
      simp [List.lookup]
    · have : t ∈ l := by
        rcases List.mem_cons.mp ht with h | h
        · exact absurd h hta
        · exact h
      have hbeq : (t == a) = false := by simp [hta]
      simp only [List.map_cons, List.lookup, hbeq]
      exact ih this

/-- C7: when the external tag-unification call fails, `unify_all_tags`
returns the identity mapping over the distinct tags of its input: every tag
observed at enrichment time looks itself up. -/
theorem unify_all_tags_fallback_identity
    (unifier : List String → Except String (List (String × String)))
    (all_tags : List String) (e : String)
    (h : unifier (unique_list all_tags) = Except.error e) :
    ∀ t ∈ all_tags,
      List.lookup t (unify_all_tags unifier all_tags) = some t := by
  intro t ht
  simp only [unify_all_tags, h]
  exact lookup_map_id (mem_dict_fromkeys.mpr ht)

/-- Witness for C7: an always-failing unifier over a concrete tag list. -/
theorem unify_all_tags_fallback_identity_witness :
    List.lookup "X"
        (unify_all_tags (fun _ => Except.error "service down") ["X", "Y", "X"]) =
      some "X" :=
  unify_all_tags_fallback_identity (fun _ => Except.error "service down")
    ["X", "Y", "X"] "service down" rfl "X" (by decide)

/-- C8: applying the tag mapping to a post's tag list replaces each tag by
its mapped value, leaves tags absent from the mapping unchanged, and then
removes duplicates keeping the first occurrence of each value in order;
["A","B","A","C"] under the identity mapping yields ["A","B","C"]. -/
theorem apply_tag_mapping_spec :
    (∀ (m : List (String × String)) (tags : List String),
      apply_tag_mapping m tags =
        dedup_keep_first (tags.map (fun t => map_image m t))) ∧
    (∀ (m : List (String × String)) (t : String),
      List.lookup t m = none → map_image m t = t) ∧
    apply_tag_mapping (["A", "B", "C"].map (fun t => (t, t)))
        ["A", "B", "A", "C"] = ["A", "B", "C"] := by
  refine ⟨fun m tags => ?_, fun m t h => ?_, by decide⟩
  · rw [apply_tag_mapping, dict_fromkeys_eq_dedup_keep_first]
  · simp [map_image, h]

/-- Witness for C8: the pass-through conjunct applied to the empty mapping. -/
theorem apply_tag_mapping_spec_witness :
    apply_tag_mapping [] ["A", "B", "A", "C"] =
        dedup_keep_first (["A", "B", "A", "C"].map (fun t => map_image [] t)) ∧
      map_image [] "X" = "X" :=
  ⟨apply_tag_mapping_spec.1 [] ["A", "B", "A", "C"],
    apply_tag_mapping_spec.2.1 [] "X" rfl⟩

/-- C9 counterexample: the map-then-deduplicate step is not idempotent for
every mapping.  With the mapping {"A" ↦ "B", "B" ↦ "C"}, one application to
["A"] yields the already-canonicalized, deduplicated list ["B"], and a
second application turns it into ["C"]. -/
theorem apply_tag_mapping_not_idempotent :
    apply_tag_mapping [("A", "B"), ("B", "C")] ["A"] = ["B"] ∧
      apply_tag_mapping [("A", "B"), ("B", "C")]
          (apply_tag_mapping [("A", "B"), ("B", "C")] ["A"]) = ["C"] ∧
      ("C" : String) ≠ "B" := by
  decide

lemma lookup_mem {t v : String} :
    ∀ {m : List (String × String)},
      List.lookup t m = some v → ∃ k, (k, v) ∈ m := by
  intro m
  induction m with
  | nil => intro h; cases h
  | cons p rest ih =>
    intro h
    obtain ⟨k, b⟩ := p
    by_cases htk : t == k
    · simp only [List.lookup, htk] at h
      exact ⟨k, by simp [Option.some_inj.mp h]⟩
    · rw [Bool.not_eq_true] at htk
      simp only [List.lookup, htk] at h
      rcases ih h with ⟨k', hk'⟩
      exact ⟨k', List.mem_cons_of_mem _ hk'⟩

/-- C9 amended: the map-then-deduplicate step is idempotent for every
mapping whose values are fixed points of the mapping (as the identity
fallback mapping is): a second application to any already-processed tag list
yields the same list. -/
theorem apply_tag_mapping_idempotent (m : List (String × String))
    (hfix : ∀ p ∈ m, map_image m p.2 = p.2) (tags : List String) :
    apply_tag_mapping m (apply_tag_mapping m tags) =
      apply_tag_mapping m tags := by
  have himg : ∀ x ∈ apply_tag_mapping m tags, map_image m x = x := by
    intro x hx
    rw [apply_tag_mapping, dict_fromkeys_eq_dedup_keep_first,
      mem_dedup_keep_first] at hx
    rcases List.mem_map.mp hx with ⟨t, _, rfl⟩
    cases hl : List.lookup t m with
    | none => simp [map_image, hl]
    | some v =>
      have hv : map_image m t = v := by simp [map_image, hl]
      rw [hv]
      rcases lookup_mem hl with ⟨k, hk⟩
      exact hfix (k, v) hk
  have hmap : (apply_tag_mapping m tags).map (fun t => map_image m t) =
      (apply_tag_mapping m tags).map (fun t => t) :=
    List.map_congr_left himg
  rw [apply_tag_mapping, hmap, List.map_id', dict_fromkeys_eq_dedup_keep_first]
  apply dedup_keep_first_eq_self_of_nodup
  rw [apply_tag_mapping, dict_fromkeys_eq_dedup_keep_first]
  exact nodup_dedup_keep_first _

/-- Witness for the amended C9 on a concrete fixed-point mapping. -/
theorem apply_tag_mapping_idempotent_witness :
    apply_tag_mapping [("A", "A"), ("X", "A")]
        (apply_tag_mapping [("A", "A"), ("X", "A")] ["X", "B"]) =
      apply_tag_mapping [("A", "A"), ("X", "A")] ["X", "B"] :=
  apply_tag_mapping_idempotent [("A", "A"), ("X", "A")] (by decide) ["X", "B"]

/-- Embeds the tag-flattening loop of `few_shot.get_tags`: extend the
accumulator with a record's tags only when the tags field is an actual
list. -/
def all_corpus_tags (corpus : List Post) : List String :=
  corpus.foldl
    (fun acc p =>
      match p.tags with
      | .ofList ts => acc ++ ts
      | .notList => acc) []

/-- Embeds `few_shot.get_tags`: the flattened tags of all records whose tags
field is a list, as a sorted set (`sorted(set(all_tags))`). -/
def get_tags (corpus : List Post) : List String :=
  (unique_list (all_corpus_tags corpus)).mergeSort (fun a b => a ≤ b)

/-- Whether a record's tags field is an actual list. -/
def has_list_tags (p : Post) : Bool :=
  match p.tags with
  | .ofList _ => true
  | .notList => false

lemma all_corpus_tags_filter (corpus : List Post) :
    all_corpus_tags corpus = all_corpus_tags (corpus.filter has_list_tags) := by
  suffices h : ∀ acc : List String,
      corpus.foldl
        (fun acc p =>
          match p.tags with
          | .ofList ts => acc ++ ts
          | .notList => acc) acc =
      (corpus.filter has_list_tags).foldl
        (fun acc p =>
          match p.tags with
          | .ofList ts => acc ++ ts
          | .notList => acc) acc by
    exact h []
  induction corpus with
  | nil => intro acc; rfl
  | cons p rest ih =>
    intro acc
    rw [List.filter_cons]
    cases hp : p.tags with
    | ofList ts =>
      have : has_list_tags p = true := by simp [has_list_tags, hp]
      rw [this, if_pos rfl, List.foldl_cons, List.foldl_cons, hp]
      exact ih _
    | notList =>
      have : has_list_tags p = false := by simp [has_list_tags, hp]
      rw [this, if_neg (by simp), List.foldl_cons, hp]
      exact ih acc

/-- C10: records whose tags field is not a list are handled totally by the
read-only operations: such a record never matches the tag filter of
`get_filtered_posts`, and `get_tags` collects the same tag set whether or
not such records are present. -/
theorem nonlist_tags_are_skipped :
    (∀ t : String, tags_contain TagsField.notList t = false) ∧
    (∀ (corpus : List Post) (s : String) (p : Post),
      p ∈ corpus.filter (fun q => tags_contain q.tags s) →
        p.tags ≠ TagsField.notList) ∧
    (∀ corpus : List Post,
      get_tags corpus = get_tags (corpus.filter has_list_tags)) := by
  refine ⟨fun _ => rfl, fun corpus s p hp hnot => ?_, fun corpus => ?_⟩
  · have := (List.mem_filter.mp hp).2
    rw [hnot] at this
    simp [tags_contain] at this
  · rw [get_tags, get_tags, ← all_corpus_tags_filter]

/-- Witness for C10 on a concrete corpus containing a non-list record. -/
theorem nonlist_tags_are_skipped_witness :
    samplePost.tags ≠ TagsField.notList :=
  nonlist_tags_are_skipped.2.1
    [samplePost, { text := "bad", engagement := 0, line_count := 1,
                   language := "English", tags := TagsField.notList }]
    "General" samplePost (by decide)

end LinkedIn
